import Mathlib

/-
Shallow embedding of `politzerSample.c`, a command-line arithmetic
expression evaluator.  C `double` values are modelled as exact rationals
(`ℚ`); C array sizes and indices are modelled as `Nat`; the C arrays
`operands`, `operators` and `evaluated` are modelled as Lean lists; the
out-parameter `double* result` is modelled by passing the cell's prior
contents in and returning its final contents.  Fallible indexing is
modelled with `List.get?`, and the `while` loop of the evaluator with an
explicit fuel parameter, so that exhausting the fuel or an out-of-bounds
access shows up as a distinguished outcome that can be proved unreachable.
-/

namespace Politzer

/-- `DBL_EPSILON` from `<float.h>`: 2⁻⁵² = 1/4503599627370496, as an
exact rational. -/
def DBL_EPSILON : ℚ := 1 / ((4503599627370496 : ℕ) : ℚ)

/-- `DBL_MAX` from `<float.h>`: (2⁵³ − 1)·2⁹⁷¹, as an exact rational,
written out as its (exact) 309-digit decimal value. -/
def DBL_MAX : ℚ :=
  ((179769313486231570814527423731704356798070567525844996598917476803157260780028538760589558632766878171540458953514382464234321326889464182768467546703537516986049910576551282076245490090389328944075868508455133942304583236903222948165808559332123348274797826204144723168738177180919299881250404026184124858368 : ℕ) : ℚ)

/-- `fabs` from `<math.h>` on the rational model of `double`. -/
def fabs (q : ℚ) : ℚ := if q < 0 then -q else q

/-- `isdigit` from `<ctype.h>` restricted to ASCII: `'0' ≤ c ≤ '9'`. -/
def isdigit (c : Char) : Bool := '0' ≤ c && c ≤ '9'

/-- Loop body of `validOperand` (politzerSample.c:246-263): walk the
string, reject a character that is neither a digit nor `'.'`, count the
`'.'` characters, and finally accept iff at most one `'.'` was seen. -/
def validOperandAux : List Char → Nat → Bool
  | [], num_dec => decide (num_dec ≤ 1)
  | c :: rest, num_dec =>
    if isdigit c = false ∧ c ≠ '.' then false
    else if c = '.' then validOperandAux rest (num_dec + 1)
    else validOperandAux rest num_dec

/-- `validOperand` (politzerSample.c:246-263). -/
def validOperand (s : List Char) : Bool := validOperandAux s 0

/-- `validOperator` (politzerSample.c:273-276): `strlen(str) == 1 &&
strpbrk(str, "+-*/") != NULL`, i.e. length one and some character of the
string is one of `+ - * /`. -/
def validOperator (s : List Char) : Bool :=
  s.length == 1 && s.any fun c => c == '+' || c == '-' || c == '*' || c == '/'

/-- Value of a string of ASCII digit characters, most significant first. -/
def digitsVal (ds : List Char) : Nat :=
  ds.foldl (fun acc c => 10 * acc + (c.toNat - 48)) 0

/-- Model of C `atof` restricted to the digit/dot tokens that can reach it
(every call site first passes `validOperand`): an optional integer part,
then optionally `'.'` and a fractional part, reading digits until the
first non-digit, exactly; sign and exponent forms never occur here. -/
def atof (s : List Char) : ℚ :=
  let intVal : ℚ := (digitsVal (s.takeWhile fun c => isdigit c) : ℚ)
  match s.dropWhile (fun c => isdigit c) with
  | '.' :: rest =>
    let fracDigits := rest.takeWhile fun c => isdigit c
    intVal + (digitsVal fracDigits : ℚ) / (((10 : ℕ) ^ fracDigits.length : ℕ) : ℚ)
  | _ => intVal

/-- Accumulator version of the `strtok(exp, " ")` loop
(politzerSample.c:51,93): split at runs of `' '`, dropping empty pieces. -/
def tokenizeAux : List Char → List Char → List (List Char)
  | [], cur => if cur = [] then [] else [cur.reverse]
  | c :: rest, cur =>
    if c = ' ' then
      if cur = [] then tokenizeAux rest []
      else cur.reverse :: tokenizeAux rest []
    else tokenizeAux rest (c :: cur)

/-- The token sequence `strtok(exp, " ")` yields over the whole line. -/
def tokenize (s : List Char) : List (List Char) := tokenizeAux s []

/-- The failure conditions `evalExpression` can report.  The first four
model the four `printf` diagnostics of the C code; `outOfBounds` and
`outOfFuel` are artifacts of the embedding (fallible indexing, fuelled
loop) and are proved unreachable. -/
inductive EvalError where
  | invalidOperand (tok : List Char)
  | invalidOperator (tok : List Char)
  | missingOperand
  | divByZero
  | outOfBounds
  | outOfFuel
  deriving DecidableEq

/-- The parse loop of `evalExpression` (politzerSample.c:54-95): consume
tokens alternately as operands and operators (`parse_operand` flips after
every token), pushing `atof token` onto `operands` resp. `token[0]` onto
`operators`, and abort on the first token failing its position's check. -/
def parseTokens : List (List Char) → Bool → List ℚ → List Char →
    Except EvalError (List ℚ × List Char)
  | [], _, operands, operators => .ok (operands, operators)
  | token :: rest, parse_operand, operands, operators =>
    if parse_operand then
      if validOperand token then
        parseTokens rest false (operands ++ [atof token]) operators
      else .error (.invalidOperand token)
    else
      if validOperator token then
        parseTokens rest true operands (operators ++ [token.headD ' '])
      else .error (.invalidOperator token)

/-- `indexOfOp` (politzerSample.c:288-297): index of the first occurrence
of `op`, scanning the whole `operators` array (the C bound
`num_operators` is the list's length); `none` models the return of −1. -/
def indexOfOp : List Char → Char → Option Nat
  | [], _ => none
  | c :: rest, op =>
    if c = op then some 0
    else (indexOfOp rest op).map (· + 1)

/-- `applyOp` (politzerSample.c:308-333).  The `result` local starts at
`0.0`, so an unrecognised `op` yields `0`; for `'/'` a divisor of
magnitude below `DBL_EPSILON` yields the sentinel `DBL_MAX`. -/
def applyOp (a b : ℚ) (op : Char) : ℚ :=
  if op = '+' then a + b
  else if op = '-' then a - b
  else if op = '*' then a * b
  else if op = '/' then
    if fabs b < DBL_EPSILON then DBL_MAX
    else a / b
  else 0

/-- The mutable evaluation state of `evalExpression`: the `operands`,
`operators` and `evaluated` arrays. -/
structure EvalState where
  operands : List ℚ
  operators : List Char
  evaluated : List Bool
  deriving DecidableEq

/-- `order_of_ops` (politzerSample.c:46). -/
def order_of_ops : List Char := ['*', '/', '+', '-']

/-- The zero byte written into a consumed operator slot
(politzerSample.c:137). -/
def opConsumed : Char := Char.ofNat 0

/-- The propagation loop (politzerSample.c:131-135): overwrite every
operand slot whose `evaluated` marker is set with `temp_val`. -/
def propagate (operands : List ℚ) (evaluated : List Bool) (temp_val : ℚ) : List ℚ :=
  List.zipWith (fun x e => if e then temp_val else x) operands evaluated

/-- One iteration of the inner `while` body (politzerSample.c:116-137):
apply `op_curr` to `operands[op_dex]` and `operands[op_dex+1]`; if the
result is the `DBL_MAX` sentinel report the divide-by-zero failure;
otherwise mark both slots evaluated, propagate the value to every
evaluated slot, and zero the consumed operator slot. -/
def innerStep (st : EvalState) (op_curr : Char) (op_dex : Nat) :
    Except EvalError EvalState :=
  match st.operands.get? op_dex with
  | none => .error .outOfBounds
  | some a =>
    match st.operands.get? (op_dex + 1) with
    | none => .error .outOfBounds
    | some b =>
      if applyOp a b op_curr = DBL_MAX then .error .divByZero
      else
        .ok ⟨propagate st.operands ((st.evaluated.set op_dex true).set (op_dex + 1) true)
               (applyOp a b op_curr),
             st.operators.set op_dex opConsumed,
             (st.evaluated.set op_dex true).set (op_dex + 1) true⟩

/-- The inner `while` loop (politzerSample.c:116-138), with explicit
fuel: repeat `innerStep` at the first slot holding `op_curr` until
`indexOfOp` reports none left. -/
def innerLoop : Nat → EvalState → Char → Except EvalError EvalState
  | 0, _, _ => .error .outOfFuel
  | fuel + 1, st, op_curr =>
    match indexOfOp st.operators op_curr with
    | none => .ok st
    | some op_dex =>
      match innerStep st op_curr op_dex with
      | .error e => .error e
      | .ok st' => innerLoop fuel st' op_curr

/-- The outer `for` loop over `order_of_ops` (politzerSample.c:113-141),
breaking out on the first failure.  Each tier's inner loop runs at most
`num_operators` iterations, so `length + 1` fuel is given per tier. -/
def tierLoop : List Char → EvalState → Except EvalError EvalState
  | [], st => .ok st
  | op_curr :: rest, st =>
    match innerLoop (st.operators.length + 1) st op_curr with
    | .error e => .error e
    | .ok st' => tierLoop rest st'

/-- Observable outcome of one `evalExpression` call: the returned flag,
the contents of the caller's `result` cell after the call, and which
diagnostic (if any) was printed. -/
structure EvalResult where
  ok : Bool
  result : ℚ
  diag : Option EvalError
  deriving DecidableEq

/-- `evalExpression` (politzerSample.c:34-151) on the line's characters
and the prior contents `result0` of the caller's `result` cell: tokenize
at spaces, parse alternately with validation, enforce
`num_operands - num_operators == 1` (as C `int` arithmetic), run the
tiered evaluation loops, and on success return `operands[0]`.  The
`result` cell is written only inside the `!error_occurred` block
(politzerSample.c:111,143), so parse and structural failures leave it at
`result0` while evaluation-phase failures set it to `0`. -/
def evalExpression (line : List Char) (result0 : ℚ) : EvalResult :=
  match parseTokens (tokenize line) true [] [] with
  | .error e => ⟨false, result0, some e⟩
  | .ok (operands, operators) =>
    if (operands.length : ℤ) - (operators.length : ℤ) ≠ 1 then
      ⟨false, result0, some .missingOperand⟩
    else
      match tierLoop order_of_ops ⟨operands, operators, List.replicate operands.length false⟩ with
      | .error e => ⟨false, 0, some e⟩
      | .ok st =>
        match st.operands.get? 0 with
        | some v => ⟨true, v, none⟩
        | none => ⟨false, 0, some .outOfBounds⟩

/-- The validity check a token must pass given the current value of the
`parse_operand` flag. -/
def checkTok (parse_operand : Bool) (tok : List Char) : Bool :=
  if parse_operand then validOperand tok else validOperator tok

/-- The diagnostic reported for a token failing its check, given the
current value of the `parse_operand` flag. -/
def tokErr (parse_operand : Bool) (tok : List Char) : EvalError :=
  if parse_operand then .invalidOperand tok else .invalidOperator tok

/-- Value of the `parse_operand` flag when the parse loop reaches the
token `j` positions after the current one: the flag flips per token. -/
def flagAt (parse_operand : Bool) (j : Nat) : Bool :=
  if j % 2 = 0 then parse_operand else !parse_operand

/-- The length invariant of the evaluation state: one more operand than
operators (the structural check of politzerSample.c:98), and one
`evaluated` marker per operand slot (the `calloc` of politzerSample.c:104). -/
def goodState (st : EvalState) : Prop :=
  st.operands.length = st.operators.length + 1 ∧
  st.evaluated.length = st.operands.length

/-- The exact 309-digit decimal numeral whose value is `DBL_MAX`: a
syntactically valid operand token (all digits), and the exact value C
`atof` gives it, since (2⁵³ − 1)·2⁹⁷¹ is exactly representable. -/
def dblMaxToken : List Char :=
  "179769313486231570814527423731704356798070567525844996598917476803157260780028538760589558632766878171540458953514382464234321326889464182768467546703537516986049910576551282076245490090389328944075868508455133942304583236903222948165808559332123348274797826204144723168738177180919299881250404026184124858368".toList

/-
Theorems.  Batteries marks the `Rat` field operations `@[irreducible]`;
they are restored to `semireducible` here so that concrete runs of the
evaluator reduce. -/

attribute [local semireducible] Rat.add Rat.sub Rat.mul Rat.inv Rat.ofScientific

set_option maxRecDepth 1000000

set_option maxHeartbeats 4000000

/-- C1: the claim that `evalExpression` computes the value of every valid
expression under standard two-tier precedence (`*`/`/` before `+`/`-`,
left-to-right inside a tier) fails on the code.  The code runs four
separate passes, one per symbol of `order_of_ops`, so in `8 / 4 * 2` the
`*` is applied before the `/` (standard value `(8/4)*2 = 4`, code yields
`1`), and the never-reset `evaluated` markers propagate a fold result
into unrelated merged groups, so `1 * 2 + 3 * 4` (standard value `14`)
yields `24`. -/
theorem evalExpression_tier_order_bug :
    evalExpression ("8 / 4 * 2".toList) 0 = ⟨true, 1, none⟩ ∧
    evalExpression ("1 * 2 + 3 * 4".toList) 0 = ⟨true, 24, none⟩ ∧
    ((8 : ℚ) / 4 * 2 = 4 ∧ (1 : ℚ) * 2 + 3 * 4 = 14) := by
  refine ⟨by decide, by decide, by norm_num⟩

/-- C2: the claim that every valid expression over `+`/`-` only evaluates
to the strict left-to-right fold fails on the code for mixtures: the `+`
pass runs to completion before the `-` pass, so `1 - 2 + 3` (left-to-right
fold `(1-2)+3 = 2`) yields `1 - (2+3) = -4`.  The single-operator instance
`10 - 3 - 2 = 5` named by the claim does hold. -/
theorem evalExpression_left_fold_bug :
    evalExpression ("10 - 3 - 2".toList) 0 = ⟨true, 5, none⟩ ∧
    evalExpression ("1 - 2 + 3".toList) 0 = ⟨true, -4, none⟩ ∧
    (1 : ℚ) - 2 + 3 = 2 := by
  refine ⟨by decide, by decide, by norm_num⟩

/-- C3: the claim that `evalExpression` reports the divide-by-zero
condition only when a `/` is applied to a divisor of magnitude below
`DBL_EPSILON` fails on the code: `applyOp` signals divide-by-zero through
the in-band sentinel `DBL_MAX`, so an expression with no `/` at all whose
exact value is `DBL_MAX` — here `dblMaxToken + 0` — is also reported as
divide-by-zero (with the result cell zeroed).  The genuine case `5 / 0`
behaves as claimed. -/
theorem evalExpression_sentinel_collision_bug :
    evalExpression ("5 / 0".toList) 0 = ⟨false, 0, some .divByZero⟩ ∧
    evalExpression (dblMaxToken ++ " + 0".toList) 0 = ⟨false, 0, some .divByZero⟩ := by
  refine ⟨by decide, by decide⟩

/-- C4: the claim (and the function's own header comment,
politzerSample.c:32) that the caller's `result` cell holds `0.0` after
every failed call fails on the code: `*result` is assigned only inside
the `!error_occurred` block (politzerSample.c:111,143), so validator and
structural failures leave the cell untouched — here it still holds the
prior value `7` — while only evaluation-phase (divide-by-zero) failures
zero it. -/
theorem evalExpression_result_unchanged_bug :
    evalExpression ("x".toList) 7 = ⟨false, 7, some (.invalidOperand ['x'])⟩ ∧
    evalExpression ("3 +".toList) 7 = ⟨false, 7, some .missingOperand⟩ ∧
    evalExpression ("5 / 0".toList) 7 = ⟨false, 0, some .divByZero⟩ := by
  refine ⟨by decide, by decide, by decide⟩

/-- C7 counterexample: the claim that tokens are split at whitespace of
any kind fails on the code: `strtok(exp, " ")` splits at `' '` only, so
`"3 + 4"` and its variant `"3\t+\t4"` — which differ only in the kind of
separating whitespace — do not evaluate identically: the tab variant is
one five-character token that fails operand validation. -/
theorem evalExpression_tab_not_separator :
    evalExpression ("3 + 4".toList) 0 = ⟨true, 7, none⟩ ∧
    evalExpression ("3\t+\t4".toList) 0 =
      ⟨false, 0, some (.invalidOperand ['3', '\t', '+', '\t', '4'])⟩ ∧
    evalExpression ("3 + 4".toList) 0 ≠ evalExpression ("3\t+\t4".toList) 0 := by
  refine ⟨by decide, by decide, by decide⟩

/-- Characterization of the `validOperand` loop body, generalized over
the running decimal counter `num_dec`. -/
lemma validOperandAux_iff (s : List Char) : ∀ n : Nat,
    validOperandAux s n = true ↔
      ((s.all fun c => isdigit c || c == '.') = true ∧ n + s.count '.' ≤ 1) := by
  induction s with
  | nil => intro n; simp [validOperandAux]
  | cons c s ih =>
    intro n
    by_cases hdot : c = '.'
    · subst hdot
      have e1 : validOperandAux ('.' :: s) n = validOperandAux s (n + 1) := by
        simp [validOperandAux]
      have e2 : ('.' :: s).count '.' = s.count '.' + 1 := by
        simp [List.count_cons]
      have e3 : (('.' :: s).all fun c => isdigit c || c == '.') =
          (s.all fun c => isdigit c || c == '.') := by
        simp [List.all_cons]
      rw [e1, e2, e3, ih]
      constructor
      · rintro ⟨h1, h2⟩
        exact ⟨h1, by omega⟩
      · rintro ⟨h1, h2⟩
        exact ⟨h1, by omega⟩
    · by_cases hd : isdigit c = true
      · have e1 : validOperandAux (c :: s) n = validOperandAux s n := by
          simp [validOperandAux, hd, hdot]
        have e2 : (c :: s).count '.' = s.count '.' := by
          simp [List.count_cons, Ne.symm hdot]
        have e3 : ((c :: s).all fun c => isdigit c || c == '.') =
            (s.all fun c => isdigit c || c == '.') := by
          simp [List.all_cons, hd]
        rw [e1, e2, e3, ih]
      · have e1 : validOperandAux (c :: s) n = false := by
          simp [validOperandAux, hd, hdot]
        rw [e1]
        simp [List.all_cons, hd, hdot]

/-- C6: `validOperand` accepts a string exactly when every character is
an ASCII digit or `'.'` and at most one `'.'` occurs; consequently the
digit-free token `"."` is accepted as an operand. -/
theorem validOperand_iff_digits_one_dot :
    (∀ s : List Char,
      validOperand s = true ↔
        ((s.all fun c => isdigit c || c == '.') = true ∧ s.count '.' ≤ 1)) ∧
    validOperand ['.'] = true := by
  constructor
  · intro s
    have h := validOperandAux_iff s 0
    simpa [validOperand] using h
  · decide

/-- Closed instance of `validOperand_iff_digits_one_dot`: the lone-dot
token is all digits-or-dots with a single dot, hence a valid operand. -/
theorem validOperand_iff_digits_one_dot_witness : validOperand ['.'] = true :=
  (validOperand_iff_digits_one_dot.1 ['.']).mpr (by decide)

/-- The index returned by `indexOfOp` is within the searched bound,
which is the length of the `operators` array. -/
lemma indexOfOp_lt {ops : List Char} {op : Char} {i : Nat}
    (h : indexOfOp ops op = some i) : i < ops.length := by
  induction ops generalizing i with
  | nil => simp [indexOfOp] at h
  | cons c rest ih =>
    by_cases hc : c = op
    · rw [indexOfOp, if_pos hc] at h
      obtain rfl : (0 : Nat) = i := by simpa using h
      simp
    · rw [indexOfOp, if_neg hc, Option.map_eq_some'] at h
      obtain ⟨j, hj, rfl⟩ := h
      have := ih hj
      simp
      omega

/-- The slot `indexOfOp` returns holds the operator searched for. -/
lemma indexOfOp_get {ops : List Char} {op : Char} {i : Nat}
    (h : indexOfOp ops op = some i) : ops.get? i = some op := by
  induction ops generalizing i with
  | nil => simp [indexOfOp] at h
  | cons c rest ih =>
    by_cases hc : c = op
    · rw [indexOfOp, if_pos hc] at h
      obtain rfl : (0 : Nat) = i := by simpa using h
      simp [hc]
    · rw [indexOfOp, if_neg hc, Option.map_eq_some'] at h
      obtain ⟨j, hj, rfl⟩ := h
      simpa using ih hj

/-- A parse-loop failure is always an invalid-operand or invalid-operator
diagnostic naming the offending token. -/
lemma parseTokens_error_elim : ∀ (ts : List (List Char)) (flag : Bool)
    (os : List ℚ) (ps : List Char) (e : EvalError),
    parseTokens ts flag os ps = .error e →
    (∃ t, e = .invalidOperand t) ∨ ∃ t, e = .invalidOperator t := by
  intro ts
  induction ts with
  | nil => intro flag os ps e h; simp [parseTokens] at h
  | cons t rest ih =>
    intro flag os ps e h
    rw [parseTokens] at h
    split at h
    · split at h
      · exact ih _ _ _ _ h
      · obtain rfl : EvalError.invalidOperand t = e := by simpa using h
        exact Or.inl ⟨t, rfl⟩
    · split at h
      · exact ih _ _ _ _ h
      · obtain rfl : EvalError.invalidOperator t = e := by simpa using h
        exact Or.inr ⟨t, rfl⟩

/-- The parse loop keeps the operand count equal to the operator count
(when about to read an operand) or one ahead (when about to read an
operator), so a successful parse ends with a difference of 0 or 1. -/
lemma parseTokens_ok_balance : ∀ (ts : List (List Char)) (flag : Bool)
    (os : List ℚ) (ps : List Char) (os' : List ℚ) (ps' : List Char),
    (if flag then os.length = ps.length else os.length = ps.length + 1) →
    parseTokens ts flag os ps = .ok (os', ps') →
    os'.length = ps'.length ∨ os'.length = ps'.length + 1 := by
  intro ts
  induction ts with
  | nil =>
    intro flag os ps os' ps' hinv h
    have hos : os = os' ∧ ps = ps' := by simpa [parseTokens] using h
    obtain ⟨rfl, rfl⟩ := hos
    split at hinv
    · exact Or.inl hinv
    · exact Or.inr hinv
  | cons t rest ih =>
    intro flag os ps os' ps' hinv h
    rw [parseTokens] at h
    split at h
    · rename_i hflag
      split at h
      · refine ih false (os ++ [atof t]) ps os' ps' ?_ h
        simp only [if_neg (by simp : ¬(false = true)), List.length_append]
        rw [if_pos hflag] at hinv
        simpa using hinv
      · simp at h
    · rename_i hflag
      split at h
      · refine ih true os (ps ++ [t.headD ' ']) os' ps' ?_ h
        simp only [if_pos rfl, List.length_append]
        rw [if_neg hflag] at hinv
        simpa using hinv
      · simp at h

/-- Unfolding equation for `innerStep` when the first operand read is
out of bounds. -/
lemma innerStep_oob_left {st : EvalState} {c : Char} {i : Nat}
    (h : st.operands.get? i = none) : innerStep st c i = .error .outOfBounds := by
  unfold innerStep
  rw [h]

/-- Unfolding equation for `innerStep` when the second operand read is
out of bounds. -/
lemma innerStep_oob_right {st : EvalState} {c : Char} {i : Nat} {a : ℚ}
    (h1 : st.operands.get? i = some a) (h2 : st.operands.get? (i + 1) = none) :
    innerStep st c i = .error .outOfBounds := by
  unfold innerStep
  rw [h1, h2]

/-- Unfolding equation for `innerStep` when both operand reads are in
bounds. -/
lemma innerStep_some_some {st : EvalState} {c : Char} {i : Nat} {a b : ℚ}
    (h1 : st.operands.get? i = some a) (h2 : st.operands.get? (i + 1) = some b) :
    innerStep st c i =
      if applyOp a b c = DBL_MAX then .error .divByZero
      else
        .ok ⟨propagate st.operands ((st.evaluated.set i true).set (i + 1) true)
               (applyOp a b c),
             st.operators.set i opConsumed,
             (st.evaluated.set i true).set (i + 1) true⟩ := by
  unfold innerStep
  rw [h1, h2]

/-- Elimination for a successful `innerStep`: both operand reads were in
bounds, the operation did not yield the sentinel, and the new state is
the propagated/marked/consumed update of the old one. -/
lemma innerStep_ok_elim {st : EvalState} {c : Char} {i : Nat} {st' : EvalState}
    (h : innerStep st c i = .ok st') :
    ∃ a b, st.operands.get? i = some a ∧ st.operands.get? (i + 1) = some b ∧
      applyOp a b c ≠ DBL_MAX ∧
      st' = ⟨propagate st.operands ((st.evaluated.set i true).set (i + 1) true)
               (applyOp a b c),
             st.operators.set i opConsumed,
             (st.evaluated.set i true).set (i + 1) true⟩ := by
  cases ha : st.operands.get? i with
  | none => rw [innerStep_oob_left ha] at h; simp at h
  | some a =>
    cases hb : st.operands.get? (i + 1) with
    | none => rw [innerStep_oob_right ha hb] at h; simp at h
    | some b =>
      rw [innerStep_some_some ha hb] at h
      split at h
      · simp at h
      · rename_i hne
        exact ⟨a, b, rfl, rfl, hne, (Except.ok.inj h).symm⟩

/-- Elimination for a failing `innerStep`: only the divide-by-zero
sentinel or an out-of-bounds operand read can fail it. -/
lemma innerStep_error_elim {st : EvalState} {c : Char} {i : Nat} {e : EvalError}
    (h : innerStep st c i = .error e) : e = .divByZero ∨ e = .outOfBounds := by
  cases ha : st.operands.get? i with
  | none =>
    rw [innerStep_oob_left ha] at h
    exact Or.inr (by simpa using h.symm)
  | some a =>
    cases hb : st.operands.get? (i + 1) with
    | none =>
      rw [innerStep_oob_right ha hb] at h
      exact Or.inr (by simpa using h.symm)
    | some b =>
      rw [innerStep_some_some ha hb] at h
      split at h
      · exact Or.inl (by simpa using h.symm)
      · simp at h

/-- `innerStep` preserves the length invariant: `List.set` keeps lengths
and `propagate` zips two equally long lists. -/
lemma innerStep_ok_good {st st' : EvalState} {c : Char} {i : Nat}
    (hg : goodState st) (h : innerStep st c i = .ok st') : goodState st' := by
  obtain ⟨a, b, _, _, _, rfl⟩ := innerStep_ok_elim h
  obtain ⟨hg1, hg2⟩ := hg
  constructor
  · simp [propagate, List.length_zipWith, hg1, hg2]
  · simp [propagate, List.length_zipWith, hg1, hg2]

/-- Under the length invariant, the slot `indexOfOp` found makes both
operand reads of `innerStep` in bounds, so it cannot report
out-of-bounds. -/
lemma innerStep_not_oob {st : EvalState} {c : Char} {i : Nat}
    (hg : goodState st) (hidx : indexOfOp st.operators c = some i) :
    innerStep st c i ≠ .error .outOfBounds := by
  have h1 : i < st.operators.length := indexOfOp_lt hidx
  have h2 : i + 1 < st.operands.length := by have := hg.1; omega
  have h3 : i < st.operands.length := by omega
  obtain ⟨a, ha⟩ : ∃ a, st.operands.get? i = some a := ⟨_, List.get?_eq_get h3⟩
  obtain ⟨b, hb⟩ : ∃ b, st.operands.get? (i + 1) = some b := ⟨_, List.get?_eq_get h2⟩
  rw [innerStep_some_some ha hb]
  split
  · simp
  · simp

/-- Unfolding equation for the inner loop when no slot matches. -/
lemma innerLoop_succ_none {n : Nat} {st : EvalState} {c : Char}
    (h : indexOfOp st.operators c = none) : innerLoop (n + 1) st c = .ok st := by
  rw [innerLoop, h]

/-- Unfolding equation for the inner loop when the step fails. -/
lemma innerLoop_succ_error {n : Nat} {st : EvalState} {c : Char} {i : Nat} {e : EvalError}
    (h1 : indexOfOp st.operators c = some i) (h2 : innerStep st c i = .error e) :
    innerLoop (n + 1) st c = .error e := by
  simp only [innerLoop, h1, h2]

/-- Unfolding equation for the inner loop when the step succeeds. -/
lemma innerLoop_succ_ok {n : Nat} {st : EvalState} {c : Char} {i : Nat} {st' : EvalState}
    (h1 : indexOfOp st.operators c = some i) (h2 : innerStep st c i = .ok st') :
    innerLoop (n + 1) st c = innerLoop n st' c := by
  simp only [innerLoop, h1, h2]

/-- A failing run of the inner loop reports divide-by-zero, an
out-of-bounds read, or fuel exhaustion. -/
lemma innerLoop_error_elim : ∀ (fuel : Nat) (st : EvalState) (c : Char) (e : EvalError),
    innerLoop fuel st c = .error e →
    e = .divByZero ∨ e = .outOfBounds ∨ e = .outOfFuel := by
  intro fuel
  induction fuel with
  | zero =>
    intro st c e h
    have : EvalError.outOfFuel = e := by simpa [innerLoop] using h
    exact Or.inr (Or.inr this.symm)
  | succ n ih =>
    intro st c e h
    cases hidx : indexOfOp st.operators c with
    | none => rw [innerLoop_succ_none hidx] at h; simp at h
    | some i =>
      cases hstep : innerStep st c i with
      | error e' =>
        rw [innerLoop_succ_error hidx hstep] at h
        obtain rfl : e' = e := by simpa using h
        rcases innerStep_error_elim hstep with h1 | h1
        · exact Or.inl h1
        · exact Or.inr (Or.inl h1)
      | ok st' =>
        rw [innerLoop_succ_ok hidx hstep] at h
        exact ih _ _ _ h

/-- The inner loop preserves the length invariant. -/
lemma innerLoop_ok_good : ∀ (fuel : Nat) (st : EvalState) (c : Char) (st' : EvalState),
    goodState st → innerLoop fuel st c = .ok st' → goodState st' := by
  intro fuel
  induction fuel with
  | zero => intro st c st' _ h; simp [innerLoop] at h
  | succ n ih =>
    intro st c st' hg h
    cases hidx : indexOfOp st.operators c with
    | none =>
      rw [innerLoop_succ_none hidx] at h
      obtain rfl : st = st' := by simpa using h
      exact hg
    | some i =>
      cases hstep : innerStep st c i with
      | error e' => rw [innerLoop_succ_error hidx hstep] at h; simp at h
      | ok st'' =>
        rw [innerLoop_succ_ok hidx hstep] at h
        exact ih _ _ _ (innerStep_ok_good hg hstep) h

/-- Under the length invariant the inner loop never reports an
out-of-bounds read. -/
lemma innerLoop_not_oob : ∀ (fuel : Nat) (st : EvalState) (c : Char),
    goodState st → innerLoop fuel st c ≠ .error .outOfBounds := by
  intro fuel
  induction fuel with
  | zero => intro st c _ h; simp [innerLoop] at h
  | succ n ih =>
    intro st c hg h
    cases hidx : indexOfOp st.operators c with
    | none => rw [innerLoop_succ_none hidx] at h; simp at h
    | some i =>
      cases hstep : innerStep st c i with
      | error e' =>
        rw [innerLoop_succ_error hidx hstep] at h
        obtain rfl : e' = .outOfBounds := by simpa using h
        exact innerStep_not_oob hg hidx hstep
      | ok st' =>
        rw [innerLoop_succ_ok hidx hstep] at h
        exact ih _ _ (innerStep_ok_good hg hstep) h

/-- Setting the slot that holds `op` to a different character removes
exactly one occurrence, so the count strictly drops. -/
lemma count_set_lt : ∀ (ops : List Char) (i : Nat) (op : Char),
    ops.get? i = some op → op ≠ opConsumed →
    (ops.set i opConsumed).count op < ops.count op := by
  intro ops
  induction ops with
  | nil => intro i op h _; simp at h
  | cons c rest ih =>
    intro i op hget hne
    cases i with
    | zero =>
      obtain rfl : c = op := by simpa using hget
      simp only [List.set_cons_zero, List.count_cons]
      have h1 : (c == opConsumed) = false := by simpa using hne
      have h2 : (c == c) = true := by simp
      have h3 : ¬ opConsumed = c := fun hcon => hne hcon.symm
      simp [h1, h2, h3]
    | succ i =>
      have hg : rest.get? i = some op := by simpa using hget
      have := ih i op hg hne
      simp only [List.set_cons_succ, List.count_cons]
      omega

/-- With more fuel than occurrences of the (non-sentinel) tier symbol,
the inner loop cannot exhaust its fuel: each step consumes one slot. -/
lemma innerLoop_not_fuel : ∀ (fuel : Nat) (st : EvalState) (c : Char),
    c ≠ opConsumed → st.operators.count c < fuel →
    innerLoop fuel st c ≠ .error .outOfFuel := by
  intro fuel
  induction fuel with
  | zero => intro st c _ h2; exact absurd h2 (Nat.not_lt_zero _)
  | succ n ih =>
    intro st c hne hcnt h
    cases hidx : indexOfOp st.operators c with
    | none => rw [innerLoop_succ_none hidx] at h; simp at h
    | some i =>
      cases hstep : innerStep st c i with
      | error e' =>
        rw [innerLoop_succ_error hidx hstep] at h
        obtain rfl : e' = .outOfFuel := by simpa using h
        rcases innerStep_error_elim hstep with h1 | h1 <;> simp at h1
      | ok st' =>
        rw [innerLoop_succ_ok hidx hstep] at h
        refine ih st' c hne ?_ h
        obtain ⟨a, b, _, _, _, rfl⟩ := innerStep_ok_elim hstep
        have hget := indexOfOp_get hidx
        have hlt := count_set_lt st.operators i c hget hne
        simp only
        omega

/-- Unfolding equation for the tier loop when the inner loop fails. -/
lemma tierLoop_cons_error {c : Char} {rest : List Char} {st : EvalState} {e : EvalError}
    (h : innerLoop (st.operators.length + 1) st c = .error e) :
    tierLoop (c :: rest) st = .error e := by
  rw [tierLoop, h]

/-- Unfolding equation for the tier loop when the inner loop succeeds. -/
lemma tierLoop_cons_ok {c : Char} {rest : List Char} {st st' : EvalState}
    (h : innerLoop (st.operators.length + 1) st c = .ok st') :
    tierLoop (c :: rest) st = tierLoop rest st' := by
  rw [tierLoop, h]

/-- A failing run of the tier loop reports divide-by-zero, an
out-of-bounds read, or fuel exhaustion — never a parse or structural
diagnostic. -/
lemma tierLoop_error_elim : ∀ (l : List Char) (st : EvalState) (e : EvalError),
    tierLoop l st = .error e →
    e = .divByZero ∨ e = .outOfBounds ∨ e = .outOfFuel := by
  intro l
  induction l with
  | nil => intro st e h; simp [tierLoop] at h
  | cons c rest ih =>
    intro st e h
    cases hil : innerLoop (st.operators.length + 1) st c with
    | error e' =>
      rw [tierLoop_cons_error hil] at h
      obtain rfl : e' = e := by simpa using h
      exact innerLoop_error_elim _ _ _ _ hil
    | ok st' =>
      rw [tierLoop_cons_ok hil] at h
      exact ih _ _ h

/-- The tier loop preserves the length invariant. -/
lemma tierLoop_ok_good : ∀ (l : List Char) (st : EvalState) (st' : EvalState),
    goodState st → tierLoop l st = .ok st' → goodState st' := by
  intro l
  induction l with
  | nil =>
    intro st st' hg h
    obtain rfl : st = st' := by simpa [tierLoop] using h
    exact hg
  | cons c rest ih =>
    intro st st' hg h
    cases hil : innerLoop (st.operators.length + 1) st c with
    | error e' => rw [tierLoop_cons_error hil] at h; simp at h
    | ok st'' =>
      rw [tierLoop_cons_ok hil] at h
      exact ih _ _ (innerLoop_ok_good _ _ _ _ hg hil) h

/-- Under the length invariant the tier loop never reports an
out-of-bounds read. -/
lemma tierLoop_not_oob : ∀ (l : List Char) (st : EvalState),
    goodState st → tierLoop l st ≠ .error .outOfBounds := by
  intro l
  induction l with
  | nil => intro st _ h; simp [tierLoop] at h
  | cons c rest ih =>
    intro st hg h
    cases hil : innerLoop (st.operators.length + 1) st c with
    | error e' =>
      rw [tierLoop_cons_error hil] at h
      obtain rfl : e' = .outOfBounds := by simpa using h
      exact innerLoop_not_oob _ _ _ hg hil
    | ok st' =>
      rw [tierLoop_cons_ok hil] at h
      exact ih _ (innerLoop_ok_good _ _ _ _ hg hil) h

/-- As long as no tier symbol is the consumed-slot sentinel, the tier
loop never exhausts the per-tier fuel `num_operators + 1`. -/
lemma tierLoop_not_fuel : ∀ (l : List Char) (st : EvalState),
    (∀ c ∈ l, c ≠ opConsumed) → tierLoop l st ≠ .error .outOfFuel := by
  intro l
  induction l with
  | nil => intro st _ h; simp [tierLoop] at h
  | cons c rest ih =>
    intro st hl h
    cases hil : innerLoop (st.operators.length + 1) st c with
    | error e' =>
      rw [tierLoop_cons_error hil] at h
      obtain rfl : e' = .outOfFuel := by simpa using h
      refine innerLoop_not_fuel _ _ _ (hl c (by simp)) ?_ hil
      have := List.count_le_length c st.operators
      omega
    | ok st' =>
      rw [tierLoop_cons_ok hil] at h
      exact ih _ (fun d hd => hl d (by simp [hd])) h

/-- Unfolding equation for `evalExpression` on a parse failure: the
flag is false, the diagnostic is the parse error, and the result cell
keeps its prior contents. -/
lemma evalExpression_parse_error {line : List Char} {r : ℚ} {e : EvalError}
    (h : parseTokens (tokenize line) true [] [] = .error e) :
    evalExpression line r = ⟨false, r, some e⟩ := by
  unfold evalExpression
  rw [h]

/-- Unfolding equation for `evalExpression` on a structural failure. -/
lemma evalExpression_structural {line : List Char} {r : ℚ} {os : List ℚ} {ps : List Char}
    (h : parseTokens (tokenize line) true [] [] = .ok (os, ps))
    (hd : (os.length : ℤ) - (ps.length : ℤ) ≠ 1) :
    evalExpression line r = ⟨false, r, some .missingOperand⟩ := by
  unfold evalExpression
  simp only [h]
  rw [if_pos hd]

/-- Unfolding equation for `evalExpression` on an evaluation-phase
failure: the result cell is zeroed. -/
lemma evalExpression_eval_error {line : List Char} {r : ℚ} {os : List ℚ} {ps : List Char}
    {e : EvalError}
    (h : parseTokens (tokenize line) true [] [] = .ok (os, ps))
    (hd : ¬((os.length : ℤ) - (ps.length : ℤ) ≠ 1))
    (ht : tierLoop order_of_ops ⟨os, ps, List.replicate os.length false⟩ = .error e) :
    evalExpression line r = ⟨false, 0, some e⟩ := by
  unfold evalExpression
  simp only [h]
  rw [if_neg hd]
  simp only [ht]

/-- Unfolding equation for `evalExpression` on a successful run. -/
lemma evalExpression_eval_ok {line : List Char} {r : ℚ} {os : List ℚ} {ps : List Char}
    {st : EvalState} {v : ℚ}
    (h : parseTokens (tokenize line) true [] [] = .ok (os, ps))
    (hd : ¬((os.length : ℤ) - (ps.length : ℤ) ≠ 1))
    (ht : tierLoop order_of_ops ⟨os, ps, List.replicate os.length false⟩ = .ok st)
    (hv : st.operands.get? 0 = some v) :
    evalExpression line r = ⟨true, v, none⟩ := by
  unfold evalExpression
  simp only [h]
  rw [if_neg hd]
  simp only [ht, hv]

/-- Unfolding equation for `evalExpression` when the final read of
`operands[0]` would be out of bounds (proved unreachable). -/
lemma evalExpression_eval_oob {line : List Char} {r : ℚ} {os : List ℚ} {ps : List Char}
    {st : EvalState}
    (h : parseTokens (tokenize line) true [] [] = .ok (os, ps))
    (hd : ¬((os.length : ℤ) - (ps.length : ℤ) ≠ 1))
    (ht : tierLoop order_of_ops ⟨os, ps, List.replicate os.length false⟩ = .ok st)
    (hv : st.operands.get? 0 = none) :
    evalExpression line r = ⟨false, 0, some .outOfBounds⟩ := by
  unfold evalExpression
  simp only [h]
  rw [if_neg hd]
  simp only [ht, hv]

/-- C5: when the whole token stream parses (every token passes its
position's check), the missing-final-operand diagnostic is reported
exactly when `num_operands - num_operators ≠ 1`; in particular the empty
input and the trailing-operator input `"3 +"` are rejected with it. -/
theorem evalExpression_missing_operand_iff :
    (∀ (line : List Char) (r : ℚ) (os : List ℚ) (ps : List Char),
      parseTokens (tokenize line) true [] [] = .ok (os, ps) →
      ((evalExpression line r).diag = some .missingOperand ↔
        (os.length : ℤ) - (ps.length : ℤ) ≠ 1)) ∧
    evalExpression [] 0 = ⟨false, 0, some .missingOperand⟩ ∧
    evalExpression ("3 +".toList) 0 = ⟨false, 0, some .missingOperand⟩ := by
  refine ⟨?_, by decide, by decide⟩
  intro line r os ps h
  by_cases hd : (os.length : ℤ) - (ps.length : ℤ) ≠ 1
  · rw [evalExpression_structural h hd]
    simpa using hd
  · cases ht : tierLoop order_of_ops ⟨os, ps, List.replicate os.length false⟩ with
    | error e =>
      rw [evalExpression_eval_error h hd ht]
      have hne : e ≠ .missingOperand := by
        rcases tierLoop_error_elim _ _ _ ht with h1 | h1 | h1 <;> simp [h1]
      constructor
      · intro hcon
        exact absurd (by simpa using hcon) hne
      · intro hcon
        exact absurd hcon hd
    | ok st =>
      cases hv : st.operands.get? 0 with
      | some v =>
        rw [evalExpression_eval_ok h hd ht hv]
        constructor
        · intro hcon; simp at hcon
        · intro hcon; exact absurd hcon hd
      | none =>
        rw [evalExpression_eval_oob h hd ht hv]
        constructor
        · intro hcon; simp at hcon
        · intro hcon; exact absurd hcon hd

/-- Closed instance of `evalExpression_missing_operand_iff` at the input
`"3 +"`, whose parse succeeds with one operand and one operator. -/
theorem evalExpression_missing_operand_iff_witness :
    (evalExpression ("3 +".toList) 0).diag = some .missingOperand ↔
      ((1 : ℤ) - (1 : ℤ) ≠ 1) :=
  evalExpression_missing_operand_iff.1 ("3 +".toList) 0 [atof ['3']] ['+'] rfl

/-- C9: every array access of the evaluation loop is in bounds:
`indexOfOp` returns an index below `num_operators`, hence both operand
slots and both `evaluated` slots it touches exist, and no run of
`evalExpression` ever reports the embedding's out-of-bounds marker. -/
theorem eval_indexing_in_bounds :
    (∀ (ops : List Char) (op : Char) (i : Nat),
      indexOfOp ops op = some i → i < ops.length) ∧
    (∀ (st : EvalState) (op : Char) (i : Nat),
      goodState st → indexOfOp st.operators op = some i →
      i + 1 < st.operands.length ∧ i + 1 < st.evaluated.length) ∧
    (∀ (line : List Char) (r : ℚ),
      (evalExpression line r).diag ≠ some .outOfBounds) := by
  refine ⟨fun _ _ _ h => indexOfOp_lt h, ?_, ?_⟩
  · intro st op i hg hidx
    have h1 := indexOfOp_lt hidx
    obtain ⟨h2, h3⟩ := hg
    exact ⟨by omega, by omega⟩
  · intro line r
    cases hp : parseTokens (tokenize line) true [] [] with
    | error e =>
      rw [evalExpression_parse_error hp]
      rcases parseTokens_error_elim _ _ _ _ _ hp with ⟨t, rfl⟩ | ⟨t, rfl⟩ <;> simp
    | ok pr =>
      obtain ⟨os, ps⟩ := pr
      by_cases hd : (os.length : ℤ) - (ps.length : ℤ) ≠ 1
      · rw [evalExpression_structural hp hd]; simp
      · have hd1 : (os.length : ℤ) - (ps.length : ℤ) = 1 := not_not.mp hd
        have hlen : os.length = ps.length + 1 := by omega
        have hg : goodState ⟨os, ps, List.replicate os.length false⟩ :=
          ⟨hlen, by simp⟩
        cases ht : tierLoop order_of_ops ⟨os, ps, List.replicate os.length false⟩ with
        | error e =>
          rw [evalExpression_eval_error hp hd ht]
          intro hcon
          obtain rfl : e = .outOfBounds := by simpa using hcon
          exact tierLoop_not_oob _ _ hg ht
        | ok st =>
          have hg' := tierLoop_ok_good _ _ _ hg ht
          cases hv : st.operands.get? 0 with
          | some v => rw [evalExpression_eval_ok hp hd ht hv]; simp
          | none =>
            exfalso
            have hlen' : 1 ≤ st.operands.length := by have := hg'.1; omega
            rw [List.get?_eq_none] at hv
            omega

/-- Closed instance of `eval_indexing_in_bounds`: for the one-operator
state of `1 + 2` the touched slots are in bounds, and the run of
`evalExpression` on `"1 + 2"` reports no out-of-bounds access. -/
theorem eval_indexing_in_bounds_witness :
    (0 + 1 < 2 ∧ 0 + 1 < 2) ∧
    (evalExpression ("1 + 2".toList) 0).diag ≠ some .outOfBounds :=
  ⟨eval_indexing_in_bounds.2.1 ⟨[1, 2], ['+'], [false, false]⟩ '+' 0 ⟨rfl, rfl⟩ rfl,
   eval_indexing_in_bounds.2.2 ("1 + 2".toList) 0⟩

/-- C10: evaluation terminates.  The consumed-slot sentinel is none of
the four tier symbols, each application zeroes the matched slot so the
number of slots holding the current tier symbol strictly decreases, and
consequently no run of `evalExpression` ever exhausts the
`num_operators + 1` fuel the embedding gives each tier's `while` loop. -/
theorem eval_terminates :
    opConsumed ∉ order_of_ops ∧
    (∀ (ops : List Char) (op : Char) (i : Nat),
      op ∈ order_of_ops → indexOfOp ops op = some i →
      (ops.set i opConsumed).count op < ops.count op) ∧
    (∀ (line : List Char) (r : ℚ),
      (evalExpression line r).diag ≠ some .outOfFuel) := by
  refine ⟨by decide, ?_, ?_⟩
  · intro ops op i hop hidx
    have hne : op ≠ opConsumed := by
      intro hcon
      subst hcon
      revert hop
      decide
    exact count_set_lt ops i op (indexOfOp_get hidx) hne
  · intro line r
    cases hp : parseTokens (tokenize line) true [] [] with
    | error e =>
      rw [evalExpression_parse_error hp]
      rcases parseTokens_error_elim _ _ _ _ _ hp with ⟨t, rfl⟩ | ⟨t, rfl⟩ <;> simp
    | ok pr =>
      obtain ⟨os, ps⟩ := pr
      by_cases hd : (os.length : ℤ) - (ps.length : ℤ) ≠ 1
      · rw [evalExpression_structural hp hd]; simp
      · cases ht : tierLoop order_of_ops ⟨os, ps, List.replicate os.length false⟩ with
        | error e =>
          rw [evalExpression_eval_error hp hd ht]
          intro hcon
          obtain rfl : e = .outOfFuel := by simpa using hcon
          exact tierLoop_not_fuel _ _ (by decide) ht
        | ok st =>
          cases hv : st.operands.get? 0 with
          | some v => rw [evalExpression_eval_ok hp hd ht hv]; simp
          | none => rw [evalExpression_eval_oob hp hd ht hv]; simp

/-- Closed instance of `eval_terminates`: consuming the `+` slot of a
one-operator array strictly drops its count, and the run of
`evalExpression` on `"1 + 2"` does not exhaust its fuel. -/
theorem eval_terminates_witness :
    ((['+'].set 0 opConsumed).count '+' < ['+'].count '+') ∧
    (evalExpression ("1 + 2".toList) 0).diag ≠ some .outOfFuel :=
  ⟨eval_terminates.2.1 ['+'] '+' 0 (by decide) rfl,
   eval_terminates.2.2 ("1 + 2".toList) 0⟩

/-- Prefix-stability of indexed access: positions below the cut are
unchanged by `List.take`. -/
lemma get?_take_of_lt {α : Type} : ∀ (l : List α) (n m : Nat), m < n →
    (l.take n).get? m = l.get? m := by
  intro l
  induction l with
  | nil => intro n m _; simp
  | cons a l ih =>
    intro n m h
    cases n with
    | zero => omega
    | succ n =>
      cases m with
      | zero => simp
      | succ m => simpa using ih n m (by omega)

/-- Stepping one token ahead flips the expected-category flag. -/
lemma flagAt_succ (flag : Bool) (j : Nat) : flagAt flag (j + 1) = flagAt (!flag) j := by
  unfold flagAt
  by_cases h : j % 2 = 0
  · have h2 : ¬(j + 1) % 2 = 0 := by omega
    simp [h, h2]
  · have h2 : (j + 1) % 2 = 0 := by omega
    simp [h, h2]

/-- If every token before position `k` passes its position's check and
the token at `k` fails its own, the parse loop stops with the diagnostic
naming that token and its expected category, whatever was accumulated. -/
lemma parseTokens_first_bad : ∀ (ts : List (List Char)) (flag : Bool)
    (os : List ℚ) (ps : List Char) (k : Nat) (tok : List Char),
    ts.get? k = some tok →
    (∀ j t, j < k → ts.get? j = some t → checkTok (flagAt flag j) t = true) →
    checkTok (flagAt flag k) tok = false →
    parseTokens ts flag os ps = .error (tokErr (flagAt flag k) tok) := by
  intro ts
  induction ts with
  | nil => intro flag os ps k tok h _ _; simp at h
  | cons t rest ih =>
    intro flag os ps k tok hget hprev hbad
    cases k with
    | zero =>
      obtain rfl : t = tok := by simpa using hget
      rw [parseTokens]
      have h0 : flagAt flag 0 = flag := by simp [flagAt]
      rw [h0] at hbad ⊢
      cases flag with
      | true =>
        have hv : validOperand t = false := by simpa [checkTok] using hbad
        simp [hv, tokErr]
      | false =>
        have hv : validOperator t = false := by simpa [checkTok] using hbad
        simp [hv, tokErr]
    | succ k =>
      have h0 : checkTok flag t = true := by
        have := hprev 0 t (Nat.succ_pos k) (by simp)
        simpa [flagAt] using this
      have hget' : rest.get? k = some tok := by simpa using hget
      have hprev' : ∀ j t', j < k → rest.get? j = some t' →
          checkTok (flagAt (!flag) j) t' = true := by
        intro j t' hj hg
        have := hprev (j + 1) t' (by omega) (by simpa using hg)
        rwa [flagAt_succ] at this
      have hbad' : checkTok (flagAt (!flag) k) tok = false := by
        rw [← flagAt_succ]
        exact hbad
      rw [parseTokens, flagAt_succ]
      cases flag with
      | true =>
        have hv : validOperand t = true := by simpa [checkTok] using h0
        simp only [if_pos rfl, hv, if_true]
        exact ih false (os ++ [atof t]) ps k tok hget' hprev' hbad'
      | false =>
        have hv : validOperator t = true := by simpa [checkTok] using h0
        simp only [Bool.false_eq_true, if_false, hv, if_true]
        exact ih true os (ps ++ [t.headD ' ']) k tok hget' hprev' hbad'

/-- C8: the parse aborts at the first token (left-to-right) failing its
position-appropriate check: `evalExpression` returns failure with the
diagnostic naming that token and its expected category, the result cell
is untouched, and the parse result only depends on the tokens up to and
including the offending one — later tokens are never scanned or stored. -/
theorem parse_aborts_at_first_invalid :
    ∀ (line : List Char) (r : ℚ) (k : Nat) (tok : List Char),
    (tokenize line).get? k = some tok →
    (∀ j t, j < k → (tokenize line).get? j = some t →
      checkTok (flagAt true j) t = true) →
    checkTok (flagAt true k) tok = false →
    evalExpression line r = ⟨false, r, some (tokErr (flagAt true k) tok)⟩ ∧
    parseTokens (tokenize line) true [] [] =
      parseTokens ((tokenize line).take (k + 1)) true [] [] := by
  intro line r k tok hget hprev hbad
  have h1 := parseTokens_first_bad (tokenize line) true [] [] k tok hget hprev hbad
  refine ⟨evalExpression_parse_error h1, ?_⟩
  have h2 := parseTokens_first_bad ((tokenize line).take (k + 1)) true [] [] k tok
    (by rw [get?_take_of_lt _ _ _ (Nat.lt_succ_self k)]; exact hget)
    (fun j t hj hg => hprev j t hj (by rwa [get?_take_of_lt _ _ _ (by omega)] at hg))
    hbad
  rw [h1, h2]

/-- Closed instance of `parse_aborts_at_first_invalid` at `"3 $ 4"`: the
token `$` at (operator) position 1 is the first invalid one, the reported
diagnostic names it as an invalid operator, and the trailing `4` plays no
part in the parse result. -/
theorem parse_aborts_at_first_invalid_witness :
    evalExpression ("3 $ 4".toList) 2 =
      ⟨false, 2, some (tokErr (flagAt true 1) ['$'])⟩ ∧
    parseTokens (tokenize ("3 $ 4".toList)) true [] [] =
      parseTokens ((tokenize ("3 $ 4".toList)).take 2) true [] [] :=
  parse_aborts_at_first_invalid ("3 $ 4".toList) 2 1 ['$'] (by decide)
    (fun j t hj hg => by
      obtain rfl : j = 0 := by omega
      have he : (tokenize ("3 $ 4".toList)).get? 0 = some ['3'] := by decide
      rw [he] at hg
      obtain rfl : ['3'] = t := Option.some.inj hg
      decide)
    (by decide)

/-- Collapsing: inserting an extra space next to an existing separating
space does not change the token sequence. -/
lemma tokenizeAux_collapse : ∀ (s t cur : List Char),
    tokenizeAux (s ++ ' ' :: ' ' :: t) cur = tokenizeAux (s ++ ' ' :: t) cur := by
  intro s
  induction s with
  | nil =>
    intro t cur
    by_cases hc : cur = []
    · subst hc
      simp [tokenizeAux]
    · simp [tokenizeAux, hc]
  | cons c s ih =>
    intro t cur
    by_cases hc : c = ' '
    · subst hc
      by_cases hcur : cur = []
      · subst hcur
        simpa [tokenizeAux] using ih t []
      · simpa [tokenizeAux, hcur] using ih t []
    · simpa [tokenizeAux, hc] using ih t (c :: cur)

/-- Trailing spaces do not change the token sequence. -/
lemma tokenizeAux_trailing : ∀ (s cur : List Char),
    tokenizeAux (s ++ [' ']) cur = tokenizeAux s cur := by
  intro s
  induction s with
  | nil =>
    intro cur
    by_cases hc : cur = [] <;> simp [tokenizeAux, hc]
  | cons c s ih =>
    intro cur
    by_cases hc : c = ' '
    · subst hc
      by_cases hcur : cur = []
      · subst hcur
        simpa [tokenizeAux] using ih []
      · simpa [tokenizeAux, hcur] using ih []
    · simpa [tokenizeAux, hc] using ih (c :: cur)

/-- C7 (amended): the tokenizer splits at runs of one or more space
characters — collapsing consecutive spaces and tolerating leading and
trailing spaces — so two expressions differing only in the amount of
separating space tokenize, and hence evaluate, identically.  (Splitting
at other whitespace, such as tabs, does not hold; see the
counterexample.) -/
theorem tokenize_space_collapsing :
    (∀ s t : List Char, tokenize (s ++ ' ' :: ' ' :: t) = tokenize (s ++ ' ' :: t)) ∧
    (∀ t : List Char, tokenize (' ' :: t) = tokenize t) ∧
    (∀ s : List Char, tokenize (s ++ [' ']) = tokenize s) ∧
    (∀ (s t : List Char) (r : ℚ),
      evalExpression (s ++ ' ' :: ' ' :: t) r = evalExpression (s ++ ' ' :: t) r) ∧
    (∀ (t : List Char) (r : ℚ), evalExpression (' ' :: t) r = evalExpression t r) ∧
    (∀ (s : List Char) (r : ℚ), evalExpression (s ++ [' ']) r = evalExpression s r) := by
  have h1 : ∀ s t : List Char,
      tokenize (s ++ ' ' :: ' ' :: t) = tokenize (s ++ ' ' :: t) :=
    fun s t => tokenizeAux_collapse s t []
  have h2 : ∀ t : List Char, tokenize (' ' :: t) = tokenize t := by
    intro t
    simp [tokenize, tokenizeAux]
  have h3 : ∀ s : List Char, tokenize (s ++ [' ']) = tokenize s :=
    fun s => tokenizeAux_trailing s []
  refine ⟨h1, h2, h3, ?_, ?_, ?_⟩
  · intro s t r
    unfold evalExpression
    rw [h1 s t]
  · intro t r
    unfold evalExpression
    rw [h2 t]
  · intro s r
    unfold evalExpression
    rw [h3 s]

/-- Closed instance of `tokenize_space_collapsing`: doubling the first
separating space of `3 + 4` changes neither the tokens nor the
evaluation. -/
theorem tokenize_space_collapsing_witness :
    tokenize (['3'] ++ ' ' :: ' ' :: ['+', ' ', '4']) =
      tokenize (['3'] ++ ' ' :: ['+', ' ', '4']) ∧
    evalExpression (['3'] ++ ' ' :: ' ' :: ['+', ' ', '4']) 0 =
      evalExpression (['3'] ++ ' ' :: ['+', ' ', '4']) 0 :=
  ⟨tokenize_space_collapsing.1 ['3'] ['+', ' ', '4'],
   tokenize_space_collapsing.2.2.2.1 ['3'] ['+', ' ', '4'] 0⟩

end Politzer
